import Mathlib

/-!
Verification of the write-buffer / flush / undo subsystem of the Footfall
tally-counter app (src/app.py), shallowly embedded in Lean 4.

Modelling conventions:
  * A persisted row of the `footfall` table is a `Row` (id from the SERIAL
    primary key, `type`, `day`, `count`).  Days are modelled as `Nat`
    (only equality and selection matter), counts as `Int` (Python ints),
    times as `Int` (only differences and a `>= 600` comparison matter).
  * The per-session state (`st.session_state`) is `AppState`: the persisted
    store, the next SERIAL id, the in-memory `queue` of
    `(type, day, count)` tuples, and `last_flush`.
  * The database batch insert can fail (psycopg2 raising); this is modelled
    by a `fail` oracle flag and an `Except Unit` result.  `fail = true`
    stands for any cause of the raise: a connection outage, or the batch
    violating the schema's `CHECK (type IN ('total','operational'))`
    constraint (src/app.py line 59).  A CHECK violation is deterministic:
    for a batch containing a kind outside the enumeration the faithful
    value of `fail` is `true` — `batch_rejected` computes that component,
    so the faithful oracle for a batch is `outage || batch_rejected rows`.
    With an empty row list `db_flush_batch` returns before touching the
    database, so it cannot fail there — the model reflects that early
    return.
  * `flush_if_needed` is split into `flush_body` (the body of the of the
    function with the database error propagating, i.e. the inside of the
    `try`) and `flush_if_needed` itself, which adds the `except` handler
    that swallows the error and leaves the state untouched.
-/

/-- A buffered queue entry `(type, day, count)`, as appended by `enqueue`. -/
abbrev QEvent := String × Nat × Int

/-- A persisted row of the `footfall` table (day column present). -/
structure Row where
  id : Nat
  type : String
  day : Nat
  count : Int
deriving DecidableEq, Repr

/-- Per-session application state: persisted store, next SERIAL id,
in-memory queue and `last_flush` timestamp. -/
structure AppState where
  store : List Row
  nextId : Nat
  queue : List QEvent
  last_flush : Int
deriving DecidableEq, Repr

/-- `FLUSH_SECONDS = 600` (src/app.py line 28). -/
def FLUSH_SECONDS : Int := 600

/-- `FLUSH_MAX = 50` (src/app.py line 29). -/
def FLUSH_MAX : Nat := 50

/-- `db_summary_for_day` (src/app.py lines 81–102, day-column path):
per-kind sums of `count` over rows of the given day, `COALESCE`d to 0. -/
def db_summary_for_day (store : List Row) (d : Nat) : Int × Int :=
  (((store.filter fun r => r.day == d && r.type == "total").map Row.count).sum,
   ((store.filter fun r => r.day == d && r.type == "operational").map Row.count).sum)

/-- `db_undo_last_for_day` (src/app.py lines 104–130, day-column path):
delete the row whose id is the greatest id among rows of day `d`;
`none` when no row matches (the subquery returns NULL and nothing is
deleted). -/
def db_undo_last_for_day (store : List Row) (d : Nat) : Option (List Row) :=
  match ((store.filter fun r => r.day == d).map Row.id).max? with
  | none => none
  | some m => some (store.filter fun r => r.id != m)

/-- Ids given to a flushed batch: `INSERT` assigns consecutive SERIAL ids
in the order of the VALUES list. -/
def assignIds (nid : Nat) : List QEvent → List Row
  | [] => []
  | (t, d, c) :: rest => ⟨nid, t, d, c⟩ :: assignIds (nid + 1) rest

/-- `db_flush_batch` (src/app.py lines 132–138): no-op on an empty list
(the early `return` happens before any database access, so an empty batch
cannot fail); otherwise a single bulk `INSERT`, which either succeeds as a
whole or raises.  `fail` is the oracle for the raise, covering both a
connection outage and a `CHECK` constraint violation; `fail = false` is
faithful only for a reachable connection and a batch that satisfies the
schema's CHECK (i.e. `batch_rejected rows = false`). -/
def db_flush_batch (fail : Bool) (store : List Row) (nid : Nat)
    (rows : List QEvent) : Except Unit (List Row × Nat) :=
  if rows.isEmpty then .ok (store, nid)
  else if fail then .error ()
  else .ok (store ++ assignIds nid rows, nid + rows.length)

/-- The kinds admitted by the schema's
`CHECK (type IN ('total','operational'))` constraint (src/app.py line 59). -/
def valid_kind (t : String) : Bool :=
  t == "total" || t == "operational"

/-- Whether the bulk `INSERT` of this batch violates the CHECK constraint
of src/app.py line 59 and therefore necessarily raises: true exactly when
some row's kind is outside the enumeration.  This is the deterministic
component of the `fail` oracle of `db_flush_batch`: the faithful oracle
value for a batch is `outage || batch_rejected rows`. -/
def batch_rejected (rows : List QEvent) : Bool :=
  !(rows.all fun e => valid_kind e.1)

/-- `pending_adjustments_for_day` (src/app.py lines 159–162): per-kind sums
of `count` over queued entries of the given day. -/
def pending_adjustments_for_day (queue : List QEvent) (d : Nat) : Int × Int :=
  (((queue.filter fun e => e.2.1 == d && e.1 == "total").map fun e => e.2.2).sum,
   ((queue.filter fun e => e.2.1 == d && e.1 == "operational").map fun e => e.2.2).sum)

/-- The dict returned by `get_summary`. -/
structure Summary where
  total : Int
  operational : Int
  opportunities : Int
deriving DecidableEq, Repr

/-- `get_summary` (src/app.py lines 164–173): persisted sums plus buffered
sums, and `opportunities = max(0, total - operational)`.  The source only
reads (`SELECT` plus queue reads), so the embedding is a pure function of
the state. -/
def get_summary (st : AppState) (d : Nat) : Summary :=
  let p := db_summary_for_day st.store d
  let q := pending_adjustments_for_day st.queue d
  { total := p.1 + q.1
    operational := p.2 + q.2
    opportunities := max 0 ((p.1 + q.1) - (p.2 + q.2)) }

/-- `enqueue` (src/app.py lines 175–176): unconditionally append to the
end of the queue. -/
def enqueue (st : AppState) (t : String) (d : Nat) (c : Int) : AppState :=
  { st with queue := st.queue ++ [(t, d, c)] }

/-- Outcome of one `flush_if_needed` call: not triggered, committed, or
the caught database failure (the warning toast path). -/
inductive FlushOutcome where
  | notTriggered
  | success
  | failure
deriving DecidableEq, Repr

/-- The `due` condition of `flush_if_needed` (src/app.py line 180):
`now - last_flush >= FLUSH_SECONDS or len(queue) >= FLUSH_MAX`. -/
def flush_due (st : AppState) (now : Int) : Prop :=
  FLUSH_SECONDS ≤ now - st.last_flush ∨ FLUSH_MAX ≤ st.queue.length

instance (st : AppState) (now : Int) : Decidable (flush_due st now) :=
  inferInstanceAs (Decidable (_ ∨ _))

/-- Body of `flush_if_needed` (src/app.py lines 178–189) with the database
error propagating (the inside of the `try`): compute `due`, and if forced
or due, batch-insert the queue, then clear it and set `last_flush = now`. -/
def flush_body (st : AppState) (force : Bool) (now : Int) (fail : Bool) :
    Except Unit (FlushOutcome × AppState) :=
  if force = true ∨ flush_due st now then
    match db_flush_batch fail st.store st.nextId st.queue with
    | .error e => .error e
    | .ok (s, n) => .ok (.success, ⟨s, n, [], now⟩)
  else .ok (.notTriggered, st)

/-- `flush_if_needed` (src/app.py lines 178–189): the body wrapped in the
`except Exception` handler, which reports failure by a toast and leaves
the session state untouched. -/
def flush_if_needed (st : AppState) (force : Bool) (now : Int) (fail : Bool) :
    FlushOutcome × AppState :=
  match flush_body st force now fail with
  | .ok r => r
  | .error _ => (.failure, st)

/-- Result reported by the undo button handler (which toast is shown). -/
inductive UndoResult where
  | removedBuffered
  | removedPersisted
  | nothingToRemove
deriving DecidableEq, Repr

/-- The queue part of the undo handler (src/app.py lines 258–264): scan the
queue from the end, pop the first (most recently appended) entry whose day
matches; `none` if no entry matches. -/
def removeLastForDay (queue : List QEvent) (d : Nat) : Option (List QEvent) :=
  match queue with
  | [] => none
  | e :: rest =>
    match removeLastForDay rest d with
    | some rest' => some (e :: rest')
    | none => if e.2.1 == d then some rest else none

/-- The undo button handler (src/app.py lines 258–269): remove from the
queue first (unflushed), else delete the most recent persisted row, else
report that nothing was removed. -/
def undo (st : AppState) (d : Nat) : UndoResult × AppState :=
  match removeLastForDay st.queue d with
  | some q => (.removedBuffered, { st with queue := q })
  | none =>
    match db_undo_last_for_day st.store d with
    | some s => (.removedPersisted, { st with store := s })
    | none => (.nothingToRemove, st)

/-- A sequence of `enqueue` calls, applied in order. -/
def enqueueAll (st : AppState) : List QEvent → AppState
  | [] => st
  | (t, d, c) :: rest => enqueueAll (enqueue st t d c) rest

/-- One caller/system action on a session, as the UI triggers them
(src/app.py lines 247–273 and 284): the two tally buttons always enqueue
count 1, the undo button, the forced sync button, and the periodic
non-forced flush; the two flush actions carry the wall-clock time and the
database-failure oracle. -/
inductive UIAction where
  | walkin (d : Nat)
  | oper (d : Nat)
  | undoBtn (d : Nat)
  | syncNow (now : Int) (fail : Bool)
  | tick (now : Int) (fail : Bool)

/-- Effect of one `UIAction` on the session state. -/
def stepA (st : AppState) : UIAction → AppState
  | .walkin d => enqueue st "total" d 1
  | .oper d => enqueue st "operational" d 1
  | .undoBtn d => (undo st d).2
  | .syncNow now fail => (flush_if_needed st true now fail).2
  | .tick now fail => (flush_if_needed st false now fail).2

/-- States reachable from a fresh session over an empty store
(src/app.py lines 149–157: empty queue, `last_flush = time.time()`;
SERIAL ids start at 1). -/
inductive Reachable : AppState → Prop where
  | init (t0 : Int) : Reachable ⟨[], 1, [], t0⟩
  | step {st : AppState} (a : UIAction) : Reachable st → Reachable (stepA st a)

/-- Invariant of reachable states: every queued and every stored event has
count 1 (the UI only ever enqueues count 1). -/
def GoodState (st : AppState) : Prop :=
  (∀ e ∈ st.queue, e.2.2 = 1) ∧ (∀ r ∈ st.store, r.count = 1)

example : db_summary_for_day [⟨1, "total", 3, 1⟩, ⟨2, "operational", 3, 1⟩, ⟨3, "total", 4, 1⟩] 3
    = (1, 1) := by decide
example : get_summary ⟨[], 1, [("total", 7, 1), ("total", 7, 1), ("total", 7, 1), ("operational", 7, 1)], 0⟩ 7
    = ⟨3, 1, 2⟩ := by decide
example : removeLastForDay [("total", 1, 1), ("total", 2, 1), ("total", 1, 1)] 1
    = some [("total", 1, 1), ("total", 2, 1)] := by decide
example : (flush_if_needed ⟨[], 1, [("total", 7, 1)], 0⟩ true 5 false).2
    = ⟨[⟨1, "total", 7, 1⟩], 2, [], 5⟩ := by decide
example : (flush_if_needed ⟨[], 1, [("total", 7, 1)], 0⟩ true 5 true).2
    = ⟨[], 1, [("total", 7, 1)], 0⟩ := by decide
example : (undo ⟨[⟨1, "total", 7, 1⟩], 2, [("total", 7, 1)], 0⟩ 7)
    = (.removedBuffered, ⟨[⟨1, "total", 7, 1⟩], 2, [], 0⟩) := by decide
example : (undo ⟨[⟨1, "total", 7, 1⟩], 2, [], 0⟩ 7)
    = (.removedPersisted, ⟨[], 2, [], 0⟩) := by decide
example : (undo ⟨[], 2, [], 0⟩ 7) = (.nothingToRemove, ⟨[], 2, [], 0⟩) := by decide

/-! ## Helper lemmas -/

/-- Complete case analysis of one flush call: not triggered; triggered but
failed (nonempty queue, database error — state untouched); or committed
(store extended by the batch under fresh ids, queue cleared,
`last_flush := now`). -/
theorem flush_if_needed_eq (st : AppState) (force : Bool) (now : Int) (fail : Bool) :
    flush_if_needed st force now fail =
      if force = true ∨ flush_due st now then
        if st.queue ≠ [] ∧ fail = true then (.failure, st)
        else (.success, ⟨st.store ++ assignIds st.nextId st.queue,
                          st.nextId + st.queue.length, [], now⟩)
      else (.notTriggered, st) := by
  by_cases hc : force = true ∨ flush_due st now
  · rw [if_pos hc]
    by_cases hq : st.queue = []
    · rw [if_neg (by simp [hq])]
      simp [flush_if_needed, flush_body, db_flush_batch, hc, hq, assignIds]
    · have hq' : st.queue.isEmpty = false := by
        simp [List.isEmpty_iff, hq]
      cases fail with
      | false =>
        rw [if_neg (by simp)]
        simp [flush_if_needed, flush_body, db_flush_batch, hc, hq']
      | true =>
        rw [if_pos ⟨hq, rfl⟩]
        simp [flush_if_needed, flush_body, db_flush_batch, hc, hq']
  · rw [if_neg hc]
    simp [flush_if_needed, flush_body, hc]

/-- `removeLastForDay` finds nothing exactly when no queued entry has the
given day. -/
theorem removeLastForDay_none_iff (q : List QEvent) (d : Nat) :
    removeLastForDay q d = none ↔ ∀ e ∈ q, e.2.1 ≠ d := by
  induction q with
  | nil => simp [removeLastForDay]
  | cons e rest ih =>
    rw [removeLastForDay]
    cases h : removeLastForDay rest d with
    | some q' =>
      have hex : ¬ ∀ f ∈ rest, f.2.1 ≠ d := by
        intro hall
        rw [ih.mpr hall] at h
        exact Option.noConfusion h
      simp only [h]
      simp only [List.forall_mem_cons]
      exact iff_of_false (by simp) (fun hc => hex hc.2)
    | none =>
      simp only [h]
      by_cases he : e.2.1 = d
      · simp [he, List.forall_mem_cons]
      · simp only [he, List.forall_mem_cons]
        simp only [show (e.2.1 == d) = false by simp [he], if_false]
        exact iff_of_true rfl ⟨he, ih.mp h⟩

/-- When `removeLastForDay` removes an entry, the queue splits as
`l₁ ++ e :: l₂` where `e` is the last entry of the requested day (nothing
in `l₂` has that day) and the result is `l₁ ++ l₂`. -/
theorem removeLastForDay_some (q : List QEvent) (d : Nat) (q' : List QEvent)
    (h : removeLastForDay q d = some q') :
    ∃ l₁ e l₂, q = l₁ ++ e :: l₂ ∧ e.2.1 = d ∧ (∀ f ∈ l₂, f.2.1 ≠ d) ∧
      q' = l₁ ++ l₂ := by
  induction q generalizing q' with
  | nil => exact absurd h (by simp [removeLastForDay])
  | cons x rest ih =>
    rw [removeLastForDay] at h
    cases hr : removeLastForDay rest d with
    | some r' =>
      rw [hr] at h
      obtain ⟨l₁, e, l₂, hq, hed, hl₂, hr'⟩ := ih r' hr
      cases h
      exact ⟨x :: l₁, e, l₂, by simp [hq], hed, hl₂, by simp [hr']⟩
    | none =>
      rw [hr] at h
      by_cases he : x.2.1 = d
      · simp only [he, beq_self_eq_true, if_true] at h
        cases h
        exact ⟨[], x, rest, by simp, he,
          (removeLastForDay_none_iff rest d).mp hr, by simp⟩
      · have : (x.2.1 == d) = false := by simp [he]
        rw [this] at h
        exact absurd h (by simp)

/-- Entries of the queue left by `removeLastForDay` were in the original
queue. -/
theorem removeLastForDay_mem {q q' : List QEvent} {d : Nat}
    (h : removeLastForDay q d = some q') : ∀ e ∈ q', e ∈ q := by
  obtain ⟨l₁, f, l₂, hq, _, _, hq'⟩ := removeLastForDay_some q d q' h
  subst hq hq'
  intro e he
  simp only [List.mem_append, List.mem_cons] at he ⊢
  tauto

/-- Removing after appending an entry of the searched day recovers the
original queue. -/
theorem removeLastForDay_append (q : List QEvent) (t : String) (d : Nat) (c : Int) :
    removeLastForDay (q ++ [(t, d, c)]) d = some q := by
  induction q with
  | nil => simp [removeLastForDay]
  | cons e rest ih => simp [removeLastForDay, ih]

/-- Every row produced by `assignIds` carries the type, day and count of
some batched event. -/
theorem mem_assignIds (q : List QEvent) (nid : Nat) (r : Row)
    (h : r ∈ assignIds nid q) :
    ∃ e ∈ q, r.type = e.1 ∧ r.day = e.2.1 ∧ r.count = e.2.2 := by
  induction q generalizing nid with
  | nil => simp [assignIds] at h
  | cons e rest ih =>
    obtain ⟨t, d, c⟩ := e
    simp only [assignIds, List.mem_cons] at h
    rcases h with h | h
    · exact ⟨(t, d, c), List.mem_cons_self _ _, by simp [h]⟩
    · obtain ⟨f, hf, hp⟩ := ih (nid + 1) h
      exact ⟨f, List.mem_cons_of_mem _ hf, hp⟩

/-- Every batched event yields a row of `assignIds` with its type, day and
count. -/
theorem assignIds_mem (q : List QEvent) (e : QEvent) (he : e ∈ q) (nid : Nat) :
    ∃ r ∈ assignIds nid q, r.type = e.1 ∧ r.day = e.2.1 ∧ r.count = e.2.2 := by
  induction q generalizing nid with
  | nil => simp at he
  | cons f rest ih =>
    obtain ⟨t, d, c⟩ := f
    rcases List.mem_cons.mp he with h | h
    · exact ⟨⟨nid, t, d, c⟩, by simp [assignIds], by simp [h]⟩
    · obtain ⟨r, hr, hp⟩ := ih h (nid + 1)
      exact ⟨r, by simp [assignIds, hr], hp⟩

/-- `enqueueAll` never touches the store. -/
theorem enqueueAll_store (st : AppState) (calls : List QEvent) :
    (enqueueAll st calls).store = st.store := by
  induction calls generalizing st with
  | nil => rfl
  | cons e rest ih =>
    obtain ⟨t, d, c⟩ := e
    exact ih (enqueue st t d c)

/-! ## Claim theorems -/

/-- C1: if the batch insert performed during a flush fails (raises), the
buffer is left exactly as it was before the flush — all queued events
remain, in order — the whole session state (hence also `last_flush`) is
unchanged, and the flush did not commit.  Holds for forced (`force =
true`) and timer/size-triggered (`force = false`) flushes alike.  The
hypothesis `st.queue ≠ []` reflects that an empty batch returns before
reaching the database and therefore cannot raise. -/
theorem flush_failure_preserves_state (st : AppState) (force : Bool) (now : Int)
    (h : st.queue ≠ []) :
    (flush_if_needed st force now true).2 = st ∧
    (flush_if_needed st force now true).1 ≠ FlushOutcome.success := by
  rw [flush_if_needed_eq]
  by_cases hc : force = true ∨ flush_due st now
  · rw [if_pos hc, if_pos ⟨h, rfl⟩]
    exact ⟨rfl, by simp⟩
  · rw [if_neg hc]
    exact ⟨rfl, by simp⟩

/-- Witness for C1 at a concrete one-event buffer with a forced flush. -/
theorem flush_failure_preserves_state_witness :
    (⟨[], 1, [("total", 7, 1)], 0⟩ : AppState).queue ≠ [] ∧
    ((flush_if_needed ⟨[], 1, [("total", 7, 1)], 0⟩ true 5 true).2
        = (⟨[], 1, [("total", 7, 1)], 0⟩ : AppState) ∧
      (flush_if_needed ⟨[], 1, [("total", 7, 1)], 0⟩ true 5 true).1
        ≠ FlushOutcome.success) :=
  ⟨by decide, flush_failure_preserves_state ⟨[], 1, [("total", 7, 1)], 0⟩ true 5 (by decide)⟩

/-- C2: after any sequence of `enqueue` calls across any mix of days and
for every day `d`, the summary's `total` is the persisted total for `d`
(computed from the untouched store) plus the buffered total for `d`, and
likewise for `operational`; the enqueues never touch the store, and
`get_summary` is a pure read (it returns only a `Summary` — the source
runs a `SELECT` and folds over the queue), so computing it mutates
neither the buffer nor the store and triggers no flush. -/
theorem summary_splits (st : AppState) (calls : List QEvent) (d : Nat) :
    (get_summary (enqueueAll st calls) d).total
      = (db_summary_for_day st.store d).1
        + (pending_adjustments_for_day (enqueueAll st calls).queue d).1 ∧
    (get_summary (enqueueAll st calls) d).operational
      = (db_summary_for_day st.store d).2
        + (pending_adjustments_for_day (enqueueAll st calls).queue d).2 ∧
    (enqueueAll st calls).store = st.store := by
  refine ⟨?_, ?_, enqueueAll_store st calls⟩ <;>
    simp [get_summary, enqueueAll_store st calls]

/-- C4: a flush call (with a healthy database) commits exactly when
forced, or when `now - last_flush ≥ FLUSH_SECONDS` (600), or when the
queue has reached `FLUSH_MAX` (50) entries; a successful commit appends
the batch to the store, clears the buffer and sets `last_flush := now`,
and a non-commit changes nothing. -/
theorem flush_commit_iff (st : AppState) (force : Bool) (now : Int) :
    ((flush_if_needed st force now false).1 = FlushOutcome.success ↔
      (force = true ∨ FLUSH_SECONDS ≤ now - st.last_flush
        ∨ FLUSH_MAX ≤ st.queue.length)) ∧
    ((flush_if_needed st force now false).1 = FlushOutcome.success →
      (flush_if_needed st force now false).2
        = ⟨st.store ++ assignIds st.nextId st.queue,
            st.nextId + st.queue.length, [], now⟩) ∧
    ((flush_if_needed st force now false).1 ≠ FlushOutcome.success →
      (flush_if_needed st force now false).2 = st) := by
  rw [flush_if_needed_eq]
  by_cases hc : force = true ∨ flush_due st now
  · rw [if_pos hc, if_neg (by simp)]
    exact ⟨iff_of_true rfl (by simpa [flush_due] using hc),
      fun _ => rfl, fun hn => absurd rfl hn⟩
  · rw [if_neg hc]
    exact ⟨iff_of_false (by simp) (by simpa [flush_due] using hc),
      fun hs => absurd hs (by simp), fun _ => rfl⟩

/-- Witness for C4: a forced flush of a one-event buffer commits it. -/
theorem flush_commit_iff_witness :
    (flush_if_needed ⟨[], 1, [("total", 7, 1)], 0⟩ true 5 false).2
      = ⟨[] ++ assignIds 1 [("total", 7, 1)], 1 + 1, [], 5⟩ :=
  (flush_commit_iff ⟨[], 1, [("total", 7, 1)], 0⟩ true 5).2.1
    ((flush_commit_iff ⟨[], 1, [("total", 7, 1)], 0⟩ true 5).1.mpr (Or.inl rfl))

/-- C6: `enqueue (k, d, 1)` immediately followed by `undo d` removes the
just-queued event from the buffer (reported as a buffered removal, the
store untouched), restoring the whole state and hence `summary` for every
day to its pre-enqueue value. -/
theorem enqueue_undo_roundtrip (st : AppState) (k : String) (d d' : Nat) :
    (undo (enqueue st k d 1) d).1 = UndoResult.removedBuffered ∧
    (undo (enqueue st k d 1) d).2 = st ∧
    get_summary (undo (enqueue st k d 1) d).2 d' = get_summary st d' := by
  have h : removeLastForDay (st.queue ++ [(k, d, 1)]) d = some st.queue :=
    removeLastForDay_append st.queue k d 1
  refine ⟨?_, ?_, ?_⟩ <;> simp [undo, enqueue, h]

/-- C7 counterexample to the claim as stated: a forced sync (`force =
true`) with an empty buffer is NOT a no-op — it leaves buffer and store
unchanged but sets `last_flush` to `now` (src/app.py line 185 runs even
for an empty queue). -/
theorem flush_empty_forced_changes_state :
    (flush_if_needed ⟨[], 1, [], 0⟩ true 100 false).2
      ≠ (⟨[], 1, [], 0⟩ : AppState) := by decide

/-- C7 (amended): a non-forced flush when nothing is due is a complete
no-op (state unchanged, nothing inserted); a forced or due flush with an
empty buffer leaves buffer and store unchanged (nothing is inserted) but
sets `last_flush := now`; and calling sync twice in a row never inserts
the same buffered batch twice — after a successful forced sync the buffer
is empty, so a second sync (whatever its own outcome) adds no rows. -/
theorem flush_idempotence_amended (st : AppState) (force : Bool)
    (now now2 : Int) (fail fail2 : Bool) :
    (¬ flush_due st now → flush_if_needed st false now fail = (.notTriggered, st)) ∧
    (st.queue = [] →
      (flush_if_needed st force now fail).2.store = st.store ∧
      (flush_if_needed st force now fail).2.queue = []) ∧
    (flush_if_needed (flush_if_needed st true now false).2 true now2 fail2).2.store
      = (flush_if_needed st true now false).2.store := by
  refine ⟨?_, ?_, ?_⟩
  · intro hnd
    rw [flush_if_needed_eq, if_neg (by simp [hnd])]
  · intro hq
    rw [flush_if_needed_eq]
    by_cases hc : force = true ∨ flush_due st now
    · rw [if_pos hc, if_neg (by simp [hq])]
      simp [hq, assignIds]
    · rw [if_neg hc]
      exact ⟨rfl, hq⟩
  · have h1 : (flush_if_needed st true now false).2.queue = [] := by
      rw [flush_if_needed_eq, if_pos (Or.inl rfl), if_neg (by simp)]
    rw [flush_if_needed_eq, if_pos (Or.inl rfl), if_neg (by simp [h1])]
    simp [h1, assignIds]

/-- Witness for C7's amended statement: a non-forced, non-due flush call
on a fresh session is a complete no-op. -/
theorem flush_idempotence_amended_witness :
    flush_if_needed ⟨[], 1, [], 0⟩ false 5 false
      = (.notTriggered, (⟨[], 1, [], 0⟩ : AppState)) :=
  (flush_idempotence_amended ⟨[], 1, [], 0⟩ false 5 5 false false).1 (by decide)

/-- C8: the store-side day summary returns `(0, 0)` when no row matches
the requested day (in particular on an empty store); the model is a total
function, mirroring the `COALESCE(..., 0)` / `or 0` handling that makes
the query safe on an empty result. -/
theorem db_summary_empty (store : List Row) (d : Nat)
    (h : ∀ r ∈ store, r.day ≠ d) :
    db_summary_for_day store d = (0, 0) := by
  have hf : ∀ t : String, store.filter (fun r => r.day == d && r.type == t) = [] := by
    intro t
    rw [List.filter_eq_nil_iff]
    intro r hr
    simp [h r hr]
  simp [db_summary_for_day, hf]

/-- Witness for C8: a store holding only day-3 rows sums to zero for
day 4, and the empty store sums to zero as well. -/
theorem db_summary_empty_witness :
    db_summary_for_day [⟨1, "total", 3, 1⟩] 4 = (0, 0) ∧
    db_summary_for_day [] 9 = (0, 0) :=
  ⟨db_summary_empty [⟨1, "total", 3, 1⟩] 4 (by decide),
   db_summary_empty [] 9 (by decide)⟩

/-- C9: the flush never propagates the database exception: whenever the
body of the `try` (`flush_body`, where the batch-insert error propagates)
raises, `flush_if_needed` still returns normally with the state untouched,
reporting the failure only as a warning outcome. -/
theorem flush_catches_db_error (st : AppState) (force : Bool) (now : Int) (fail : Bool)
    (h : flush_body st force now fail = .error ()) :
    flush_if_needed st force now fail = (.failure, st) := by
  simp [flush_if_needed, h]

/-- Witness for C9 at a concrete failing forced flush. -/
theorem flush_catches_db_error_witness :
    flush_if_needed ⟨[], 1, [("total", 7, 1)], 0⟩ true 5 true
      = (.failure, (⟨[], 1, [("total", 7, 1)], 0⟩ : AppState)) :=
  flush_catches_db_error ⟨[], 1, [("total", 7, 1)], 0⟩ true 5 true (by rfl)

/-- C10 counterexample to the claim as stated: an event with the
arbitrary kind "bogus" is appended and succeeds locally, but it does NOT
contribute to any later (persisted) flush — the batch carrying it
violates the `CHECK (type IN ('total','operational'))` constraint of
src/app.py line 59, so the bulk insert raises (`batch_rejected` is the
faithful oracle value) and the store stays empty: the event can never be
persisted. -/
theorem enqueue_invalid_kind_never_persisted :
    batch_rejected (enqueue ⟨[], 1, [], 0⟩ "bogus" 7 1).queue = true ∧
    (flush_if_needed (enqueue ⟨[], 1, [], 0⟩ "bogus" 7 1) true 5
        (batch_rejected (enqueue ⟨[], 1, [], 0⟩ "bogus" 7 1).queue)).2.store
      = [] := by decide

/-- C10 (amended): `enqueue` itself validates nothing — for every kind
string (not only "total"/"operational"), every day and every integer
count (zero and negative included) it appends `(kind, day, count)` to the
end of the buffer, touching nothing else, and the event contributes its
count to the buffered sums of its kind.  The event is included in later
flush batches, but it is persisted only when the batch satisfies the
schema's CHECK constraint: a successful forced flush of a CHECK-clean
batch inserts it into the store, while an event whose kind is invalid
makes the whole batch rejected, so the faithful flush fails and changes
nothing — the event is never persisted. -/
theorem enqueue_unvalidated_amended (st : AppState) (t : String) (d : Nat)
    (c : Int) (now : Int) :
    (enqueue st t d c).queue = st.queue ++ [(t, d, c)] ∧
    (enqueue st t d c).store = st.store ∧
    (enqueue st t d c).last_flush = st.last_flush ∧
    (pending_adjustments_for_day (enqueue st t d c).queue d).1
      = (pending_adjustments_for_day st.queue d).1 + (if t = "total" then c else 0) ∧
    (pending_adjustments_for_day (enqueue st t d c).queue d).2
      = (pending_adjustments_for_day st.queue d).2 + (if t = "operational" then c else 0) ∧
    (batch_rejected (enqueue st t d c).queue = false →
      ∃ r ∈ (flush_if_needed (enqueue st t d c) true now false).2.store,
        r.type = t ∧ r.day = d ∧ r.count = c) ∧
    (valid_kind t = false →
      batch_rejected (enqueue st t d c).queue = true ∧
      (flush_if_needed (enqueue st t d c) true now
          (batch_rejected (enqueue st t d c).queue)).2 = enqueue st t d c) := by
  refine ⟨rfl, rfl, rfl, ?_, ?_, ?_, ?_⟩
  · by_cases ht : t = "total" <;> simp [pending_adjustments_for_day, enqueue, ht]
  · by_cases ht : t = "operational" <;> simp [pending_adjustments_for_day, enqueue, ht]
  · intro _
    rw [flush_if_needed_eq, if_pos (Or.inl rfl), if_neg (by simp)]
    obtain ⟨r, hr, hp⟩ := assignIds_mem ((enqueue st t d c).queue) (t, d, c)
      (by simp [enqueue]) (enqueue st t d c).nextId
    exact ⟨r, List.mem_append_right _ hr, hp⟩
  · intro hv
    have hB : batch_rejected (enqueue st t d c).queue = true := by
      simp [batch_rejected, enqueue, List.all_append, hv]
    refine ⟨hB, ?_⟩
    rw [hB, flush_if_needed_eq, if_pos (Or.inl rfl),
      if_pos ⟨by simp [enqueue], rfl⟩]

/-- Witness for C10's amended statement: a "total" event is persisted by
a clean forced flush, while a "bogus" event makes the faithful flush a
failure that leaves the session state (the event still buffered) as it
was. -/
theorem enqueue_unvalidated_amended_witness :
    (∃ r ∈ (flush_if_needed (enqueue ⟨[], 1, [], 0⟩ "total" 7 1) true 5 false).2.store,
        r.type = "total" ∧ r.day = 7 ∧ r.count = 1) ∧
    (flush_if_needed (enqueue ⟨[], 1, [], 0⟩ "bogus" 7 1) true 5
        (batch_rejected (enqueue ⟨[], 1, [], 0⟩ "bogus" 7 1).queue)).2
      = enqueue ⟨[], 1, [], 0⟩ "bogus" 7 1 :=
  ⟨(enqueue_unvalidated_amended ⟨[], 1, [], 0⟩ "total" 7 1 5).2.2.2.2.2.1 (by decide),
   ((enqueue_unvalidated_amended ⟨[], 1, [], 0⟩ "bogus" 7 1 5).2.2.2.2.2.2 (by decide)).2⟩

/-! ## Undo precedence (C3) -/

/-- `db_undo_last_for_day` returning a result implies some row of that day
exists. -/
theorem db_undo_some_day (store : List Row) (d : Nat) (s : List Row)
    (h : db_undo_last_for_day store d = some s) : ∃ r ∈ store, r.day = d := by
  unfold db_undo_last_for_day at h
  cases hm : ((store.filter fun r => r.day == d).map Row.id).max? with
  | none => rw [hm] at h; exact absurd h (by simp)
  | some m =>
    have hmem := List.max?_mem (fun a b => max_choice a b) hm
    obtain ⟨r, hrf, _⟩ := List.mem_map.mp hmem
    have hsp := List.mem_filter.mp hrf
    exact ⟨r, hsp.1, by simpa using hsp.2⟩

/-- Rows surviving `db_undo_last_for_day` were in the original store. -/
theorem db_undo_mem (store : List Row) (d : Nat) (s : List Row)
    (h : db_undo_last_for_day store d = some s) : ∀ r ∈ s, r ∈ store := by
  unfold db_undo_last_for_day at h
  cases hm : ((store.filter fun r => r.day == d).map Row.id).max? with
  | none => rw [hm] at h; exact absurd h (by simp)
  | some m =>
    rw [hm] at h
    injection h with h
    intro r hr
    rw [← h] at hr
    exact (List.mem_filter.mp hr).1

/-- When some row of day `d` exists, `db_undo_last_for_day` deletes the
rows carrying the greatest id among day-`d` rows (exactly one row once
ids are unique). -/
theorem db_undo_some (store : List Row) (d : Nat)
    (h : ∃ r ∈ store, r.day = d) :
    ∃ r ∈ store, r.day = d ∧ (∀ y ∈ store, y.day = d → y.id ≤ r.id) ∧
      db_undo_last_for_day store d = some (store.filter fun x => x.id != r.id) := by
  obtain ⟨r0, hr0, hd0⟩ := h
  have hmem : r0.id ∈ (store.filter fun r => r.day == d).map Row.id :=
    List.mem_map_of_mem _ (List.mem_filter.mpr ⟨hr0, by simp [hd0]⟩)
  cases hm : ((store.filter fun r => r.day == d).map Row.id).max? with
  | none =>
    rw [List.max?_eq_none_iff] at hm
    rw [hm] at hmem
    exact absurd hmem (List.not_mem_nil _)
  | some m =>
    have hm2 := hm
    rw [List.max?_eq_some_iff (fun a => Nat.le_refl a) (fun a b => max_choice a b)
      (fun a b c => Nat.max_le)] at hm2
    obtain ⟨hmmem, hmub⟩ := hm2
    obtain ⟨r, hrf, hrid⟩ := List.mem_map.mp hmmem
    have hsp := List.mem_filter.mp hrf
    refine ⟨r, hsp.1, by simpa using hsp.2, ?_, ?_⟩
    · intro y hy hyd
      have hyid : y.id ∈ (store.filter fun r => r.day == d).map Row.id :=
        List.mem_map_of_mem _ (List.mem_filter.mpr ⟨hy, by simp [hyd]⟩)
      rw [hrid]
      exact hmub _ hyid
    · unfold db_undo_last_for_day
      rw [hm, hrid]

/-- With pairwise-distinct ids, filtering out one present id removes
exactly one row. -/
theorem filter_ne_id_length (store : List Row) (m : Nat)
    (hnd : (store.map Row.id).Nodup) (hm : m ∈ store.map Row.id) :
    (store.filter fun x => x.id != m).length + 1 = store.length := by
  induction store with
  | nil => simp at hm
  | cons r rest ih =>
    rw [List.map_cons, List.nodup_cons] at hnd
    rcases List.mem_cons.mp hm with h | h
    · subst h
      have hrest : rest.filter (fun x => x.id != r.id) = rest := by
        rw [List.filter_eq_self]
        intro x hx
        have hxid : x.id ∈ rest.map Row.id := List.mem_map_of_mem _ hx
        have hne : x.id ≠ r.id := by
          intro hxm
          rw [hxm] at hxid
          exact hnd.1 hxid
        simpa using hne
      simp [List.filter_cons, hrest]
    · have hr : r.id ≠ m := by
        intro hrm
        rw [hrm] at hnd
        exact hnd.1 h
      have hcond : (r.id != m) = true := by simpa using hr
      simp only [List.filter_cons, hcond, if_true, List.length_cons]
      have := ih hnd.2 h
      omega

/-- C3: three-tier undo precedence.  If a buffered event of the day
exists, `undo` removes the last-appended such event from the queue
(reported as a buffered removal) and leaves the store untouched; else, if
a persisted row of the day exists, it deletes the one with the greatest
id (reported persisted) and leaves the queue untouched; else it reports
nothing to remove and changes nothing.  At most one event is removed per
call.  `hnd` records uniqueness of the SERIAL primary key. -/
theorem undo_precedence (st : AppState) (d : Nat)
    (hnd : (st.store.map Row.id).Nodup) :
    ((∃ e ∈ st.queue, e.2.1 = d) →
      (undo st d).1 = UndoResult.removedBuffered ∧
      (undo st d).2.store = st.store ∧
      ∃ l₁ e l₂, st.queue = l₁ ++ e :: l₂ ∧ e.2.1 = d ∧
        (∀ f ∈ l₂, f.2.1 ≠ d) ∧ (undo st d).2.queue = l₁ ++ l₂) ∧
    ((∀ e ∈ st.queue, e.2.1 ≠ d) → (∃ r ∈ st.store, r.day = d) →
      (undo st d).1 = UndoResult.removedPersisted ∧
      (undo st d).2.queue = st.queue ∧
      ∃ r ∈ st.store, r.day = d ∧ (∀ y ∈ st.store, y.day = d → y.id ≤ r.id) ∧
        (undo st d).2.store = st.store.filter (fun x => x.id != r.id) ∧
        (undo st d).2.store.length + 1 = st.store.length) ∧
    ((∀ e ∈ st.queue, e.2.1 ≠ d) → (∀ r ∈ st.store, r.day ≠ d) →
      undo st d = (UndoResult.nothingToRemove, st)) ∧
    st.queue.length + st.store.length
      ≤ (undo st d).2.queue.length + (undo st d).2.store.length + 1 := by
  refine ⟨?_, ?_, ?_, ?_⟩
  · rintro ⟨e0, he0, hd0⟩
    cases hq : removeLastForDay st.queue d with
    | none => exact absurd hd0 ((removeLastForDay_none_iff _ _).mp hq e0 he0)
    | some q' =>
      obtain ⟨l₁, e, l₂, hsplit, hed, hl₂, hq'⟩ := removeLastForDay_some _ _ _ hq
      exact ⟨by simp [undo, hq], by simp [undo, hq], l₁, e, l₂, hsplit, hed, hl₂,
        by simp [undo, hq, hq']⟩
  · intro hnone hex
    have hq : removeLastForDay st.queue d = none :=
      (removeLastForDay_none_iff _ _).mpr hnone
    obtain ⟨r, hrS, hrd, hub, heq⟩ := db_undo_some st.store d hex
    have hlen : (st.store.filter fun x => x.id != r.id).length + 1 = st.store.length :=
      filter_ne_id_length st.store r.id hnd (List.mem_map_of_mem _ hrS)
    exact ⟨by simp [undo, hq, heq], by simp [undo, hq, heq], r, hrS, hrd, hub,
      by simp [undo, hq, heq], by simp [undo, hq, heq, hlen]⟩
  · intro hnone hnoR
    have hq : removeLastForDay st.queue d = none :=
      (removeLastForDay_none_iff _ _).mpr hnone
    have hfe : st.store.filter (fun r => r.day == d) = [] := by
      rw [List.filter_eq_nil_iff]
      intro r hr
      simp [hnoR r hr]
    have hdb : db_undo_last_for_day st.store d = none := by
      unfold db_undo_last_for_day
      rw [hfe]
      rfl
    simp [undo, hq, hdb]
  · cases hq : removeLastForDay st.queue d with
    | some q' =>
      obtain ⟨l₁, e, l₂, hsplit, _, _, hq'⟩ := removeLastForDay_some _ _ _ hq
      have h1 : (undo st d).2.queue = q' := by simp [undo, hq]
      have h2 : (undo st d).2.store = st.store := by simp [undo, hq]
      rw [h1, h2, hsplit, hq']
      simp [List.length_append]
      omega
    | none =>
      cases hdb : db_undo_last_for_day st.store d with
      | some s' =>
        have h1 : (undo st d).2.queue = st.queue := by simp [undo, hq, hdb]
        have h2 : (undo st d).2.store = s' := by simp [undo, hq, hdb]
        obtain ⟨r, hrS, _, _, heq⟩ :=
          db_undo_some st.store d (db_undo_some_day st.store d s' hdb)
        rw [hdb] at heq
        injection heq with heq
        have hlen := filter_ne_id_length st.store r.id hnd (List.mem_map_of_mem _ hrS)
        rw [h1, h2, heq]
        omega
      | none =>
        have h1 : (undo st d).2 = st := by simp [undo, hq, hdb]
        rw [h1]
        omega

/-- Witness for C3: with one buffered and one persisted event for day 7,
undo removes the buffered one first. -/
theorem undo_precedence_witness :
    (undo ⟨[⟨1, "total", 7, 1⟩], 2, [("operational", 7, 2)], 0⟩ 7).1
      = UndoResult.removedBuffered :=
  ((undo_precedence ⟨[⟨1, "total", 7, 1⟩], 2, [("operational", 7, 2)], 0⟩ 7
      (by decide)).1 ⟨("operational", 7, 2), by decide, rfl⟩).1

/-! ## Reachable-state invariant and summary nonnegativity (C5) -/

/-- Store sums are nonnegative when every stored count is 1. -/
theorem db_sum_nonneg (store : List Row) (d : Nat)
    (h : ∀ r ∈ store, r.count = 1) :
    0 ≤ (db_summary_for_day store d).1 ∧ 0 ≤ (db_summary_for_day store d).2 := by
  constructor <;>
  · apply List.sum_nonneg
    intro x hx
    obtain ⟨r, hrf, hrc⟩ := List.mem_map.mp hx
    have h1 : x = 1 := by
      rw [← hrc]
      exact h r (List.mem_filter.mp hrf).1
    rw [h1]
    norm_num

/-- Buffered sums are nonnegative when every queued count is 1. -/
theorem pending_sum_nonneg (queue : List QEvent) (d : Nat)
    (h : ∀ e ∈ queue, e.2.2 = 1) :
    0 ≤ (pending_adjustments_for_day queue d).1 ∧
    0 ≤ (pending_adjustments_for_day queue d).2 := by
  constructor <;>
  · apply List.sum_nonneg
    intro x hx
    obtain ⟨e, hef, hec⟩ := List.mem_map.mp hx
    have h1 : x = 1 := by
      rw [← hec]
      exact h e (List.mem_filter.mp hef).1
    rw [h1]
    norm_num

/-- A flush preserves the all-counts-1 invariant: on success the store
only gains rows whose counts come from the queue. -/
theorem flush_good (st : AppState) (force : Bool) (now : Int) (fail : Bool)
    (h : GoodState st) : GoodState (flush_if_needed st force now fail).2 := by
  rw [flush_if_needed_eq]
  split
  · split
    · exact h
    · refine ⟨by simp, ?_⟩
      intro r hr
      rcases List.mem_append.mp hr with h1 | h1
      · exact h.2 r h1
      · obtain ⟨e, he, _, _, hc⟩ := mem_assignIds _ _ _ h1
        rw [hc]
        exact h.1 e he
  · exact h

/-- An undo preserves the all-counts-1 invariant: it only ever removes. -/
theorem undo_good (st : AppState) (d : Nat) (h : GoodState st) :
    GoodState (undo st d).2 := by
  cases hq : removeLastForDay st.queue d with
  | some q' =>
    have h1 : (undo st d).2 = { st with queue := q' } := by simp [undo, hq]
    rw [h1]
    exact ⟨fun e he => h.1 e (removeLastForDay_mem hq e he), h.2⟩
  | none =>
    cases hdb : db_undo_last_for_day st.store d with
    | some s' =>
      have h1 : (undo st d).2 = { st with store := s' } := by simp [undo, hq, hdb]
      rw [h1]
      exact ⟨h.1, fun r hr => h.2 r (db_undo_mem st.store d s' hdb r hr)⟩
    | none =>
      have h1 : (undo st d).2 = st := by simp [undo, hq, hdb]
      rw [h1]
      exact h

/-- Every reachable session state satisfies the all-counts-1 invariant. -/
theorem reachable_good {st : AppState} (h : Reachable st) : GoodState st := by
  induction h with
  | init t0 => exact ⟨by simp, by simp⟩
  | step a _ ih =>
    cases a with
    | walkin d =>
      refine ⟨?_, ih.2⟩
      intro e he
      rcases List.mem_append.mp he with h1 | h1
      · exact ih.1 e h1
      · simp at h1
        simp [h1]
    | oper d =>
      refine ⟨?_, ih.2⟩
      intro e he
      rcases List.mem_append.mp he with h1 | h1
      · exact ih.1 e h1
      · simp at h1
        simp [h1]
    | undoBtn d => exact undo_good _ d ih
    | syncNow now fail => exact flush_good _ true now fail ih
    | tick now fail => exact flush_good _ false now fail ih

/-- C5: `opportunities = max(0, total - operational)` is nonnegative for
every state whatsoever (even when operational exceeds total), and on
every reachable store/buffer combination the summary's `total` and
`operational` are nonnegative as well. -/
theorem summary_nonneg (st : AppState) (d : Nat) :
    0 ≤ (get_summary st d).opportunities ∧
    (Reachable st →
      0 ≤ (get_summary st d).total ∧ 0 ≤ (get_summary st d).operational) := by
  constructor
  · exact le_max_left 0 _
  · intro hreach
    obtain ⟨hq, hs⟩ := reachable_good hreach
    have h1 := db_sum_nonneg st.store d hs
    have h2 := pending_sum_nonneg st.queue d hq
    exact ⟨add_nonneg h1.1 h2.1, add_nonneg h1.2 h2.2⟩

/-- Witness for C5 at the freshly initialised session (reachable by
construction). -/
theorem summary_nonneg_witness :
    0 ≤ (get_summary ⟨[], 1, [], 0⟩ 3).opportunities ∧
    (0 ≤ (get_summary ⟨[], 1, [], 0⟩ 3).total ∧
      0 ≤ (get_summary ⟨[], 1, [], 0⟩ 3).operational) :=
  ⟨(summary_nonneg ⟨[], 1, [], 0⟩ 3).1,
   (summary_nonneg ⟨[], 1, [], 0⟩ 3).2 (Reachable.init 0)⟩
